import Mathlib

/-!
# Verification of the url-access service (servers/url-access/main.py)

Shallow embedding of the two request handlers (`fetch_url_content`,
`analyze_url`) and the HTML extraction routine (`extract_text_from_html`).

Modelling conventions:

* Text is `List Char` (named `Str` below); bytes are `Nat` values.
* External library calls whose behaviour the handlers merely consume are
  function parameters collected in `Ext` (the HTML parser `BeautifulSoup`,
  `json.loads` / `json.dumps`, and the message that `requests`'
  `raise_for_status` attaches to an `HTTPError`).  The handlers' own logic
  — dispatch, streaming cap, decoding fallback, error translation — is
  defined concretely from the source.
* The outcome of one outbound network call is an explicit input
  (`FetchOutcome` / `HeadOutcome`): success carries the data the handler
  reads from the response, the other constructors are the exception classes
  the handlers catch.
* Raising `HTTPException` is modelled with `Except`; an exception raised
  inside the `try:` body of `fetch_url_content` is a `BodyExc` value, which
  the surrounding `except` clauses then translate, exactly as in the source
  (note that FastAPI's `HTTPException` derives from `Exception`, so the
  final `except Exception` clause catches it).
-/

abbrev Str := List Char

/-- Python `str.isspace` character table (`Py_UNICODE_ISSPACE`), used by
`str.strip` and `str.split()`. -/
def isPySpace (c : Char) : Bool :=
  let n := c.toNat
  (9 ≤ n && n ≤ 13) || (28 ≤ n && n ≤ 32) || n == 133 || n == 160 ||
    n == 5760 || (8192 ≤ n && n ≤ 8202) || n == 8232 || n == 8233 ||
    n == 8239 || n == 8287 || n == 12288

/-- Python `str.splitlines` line-boundary character table. -/
def isPyLineBreak (c : Char) : Bool :=
  let n := c.toNat
  (10 ≤ n && n ≤ 13) || (28 ≤ n && n ≤ 30) || n == 133 ||
    n == 8232 || n == 8233

/-- Python `str.strip()`: drop whitespace from both ends. -/
def pyStrip (l : Str) : Str :=
  ((l.dropWhile isPySpace).reverse.dropWhile isPySpace).reverse

/-- Python `str.splitlines()`; `\r\n` counts as a single boundary and a
trailing boundary produces no extra empty line. -/
def pySplitlines : Str → List Str
  | [] => []
  | '\r' :: '\n' :: rest => [] :: pySplitlines rest
  | c :: rest =>
    if isPyLineBreak c then [] :: pySplitlines rest
    else
      match pySplitlines rest with
      | s :: ss => (c :: s) :: ss
      | [] => [[c]]

/-- Python `str.split("  ")`: split on non-overlapping occurrences of two
consecutive spaces, scanning left to right. -/
def splitDouble : Str → List Str
  | [] => [[]]
  | ' ' :: ' ' :: rest => [] :: splitDouble rest
  | c :: rest =>
    match splitDouble rest with
    | s :: ss => (c :: s) :: ss
    | [] => [[c]]

/-- Python `' '.join(...)`. -/
def joinSp : List Str → Str
  | [] => []
  | [f] => f
  | f :: g :: rest => f ++ ' ' :: joinSp (g :: rest)

/-- The whitespace normalization of `extract_text_from_html` (main.py
lines 99–102): split into lines, strip each, split each line on runs of two
spaces, strip the phrases, keep the non-empty chunks and join with single
spaces. -/
def pyNormalize (t : Str) : Str :=
  joinSp
    ((((pySplitlines t).map pyStrip).flatMap
        (fun line => (splitDouble line).map pyStrip)).filter
      (fun c => !c.isEmpty))

/-- The non-empty stripped chunks that `pyNormalize` joins. -/
def normFrags (t : Str) : List Str :=
  (((pySplitlines t).map pyStrip).flatMap
      (fun line => (splitDouble line).map pyStrip)).filter
    (fun c => !c.isEmpty)

/-- Python's `needle in hay` substring test: `isPre n h` holds when `n`
is an initial segment of `h`. -/
def isPre : Str → Str → Bool
  | [], _ => true
  | _ :: _, [] => false
  | a :: as, b :: bs => a == b && isPre as bs

/-- Python's `needle in hay` substring containment. -/
def hasSub : Str → Str → Bool
  | [], n => n.isEmpty
  | c :: rest, n => isPre n (c :: rest) || hasSub rest n

/-- Python `str.split()` (split on whitespace runs, no empty tokens):
worker with the current token accumulated in reverse. -/
def pySplitWSGo : Str → Str → List Str
  | cur, [] => if cur.isEmpty then [] else [cur.reverse]
  | cur, c :: rest =>
    if isPySpace c then
      if cur.isEmpty then pySplitWSGo [] rest
      else cur.reverse :: pySplitWSGo [] rest
    else pySplitWSGo (c :: cur) rest

/-- Python `str.split()`. -/
def pySplitWS (l : Str) : List Str := pySplitWSGo [] l

/-- Python `str.lower()` (ASCII case fold; HTTP header values are
Latin-1/ASCII in practice). -/
def pyLower (l : Str) : Str := l.map Char.toLower

/-- Adjacent-character relation used to say a string has no run of two
plain spaces. -/
def SepSp (a b : Char) : Prop := ¬(a = ' ' ∧ b = ' ')

/-- No two consecutive plain spaces anywhere in the string. -/
def NoDbl (l : Str) : Prop := l.Chain' SepSp

/-!
## The parsed HTML tree

`BeautifulSoup(html, 'html.parser')` yields a tree of tags and text nodes;
the routine only reads tag names, attribute strings and text, so that is
the whole model.  The soup object itself is the `[document]` root element.
-/

mutual
/-- An HTML tag with its attributes and contents. -/
inductive Node where
  | elem (tag : Str) (attrs : List (Str × Str)) (children : NodeForest)
  | text (s : Str)

/-- The contents of a tag: a sequence of child nodes (kept as its own
inductive so that the tree recursions below are structural). -/
inductive NodeForest where
  | nil
  | cons (head : Node) (tail : NodeForest)
end

/-- Build a forest from a list of children. -/
def forestOf : List Node → NodeForest
  | [] => .nil
  | n :: rest => .cons n (forestOf rest)

/-- First binding of an attribute name (bs4 keeps the first occurrence of a
duplicated attribute). -/
def attrGet : List (Str × Str) → Str → Option Str
  | [], _ => none
  | (k0, v) :: rest, k => if k0 == k then some v else attrGet rest k

/-- Python `tag.get(key, default)`. -/
def attrGetD (a : List (Str × Str)) (k : Str) (d : Str) : Str :=
  (attrGet a k).getD d

/-- `soup.find(...)` search order over a forest: a node, then its subtree,
then its later siblings (document preorder). -/
def findBy (p : Str → List (Str × Str) → Bool) : NodeForest → Option Node
  | .nil => none
  | .cons (.text _) rest => findBy p rest
  | .cons (.elem tg a ch) rest =>
    if p tg a then some (.elem tg a ch)
    else
      match findBy p ch with
      | some n => some n
      | none => findBy p rest

/-- `soup.find(...)`: search the descendants of the root. -/
def nodeFind (p : Str → List (Str × Str) → Bool) : Node → Option Node
  | .text _ => none
  | .elem _ _ ch => findBy p ch

/-- `soup.find(tagname)`. -/
def nodeFindTag (n : Node) (t : Str) : Option Node :=
  nodeFind (fun tg _ => tg == t) n

/-- `soup.find_all(...)` in document preorder (bs4 also descends into
matching tags). -/
def findAllBy (p : Str → List (Str × Str) → Bool) : NodeForest → List Node
  | .nil => []
  | .cons (.text _) rest => findAllBy p rest
  | .cons (.elem tg a ch) rest =>
    (if p tg a then [Node.elem tg a ch] else []) ++ findAllBy p ch ++
      findAllBy p rest

/-- `tag.get_text()` over a forest: concatenation of all text descendants
in document order. -/
def getTextL : NodeForest → Str
  | .nil => []
  | .cons (.text s) rest => s ++ getTextL rest
  | .cons (.elem _ _ ch) rest => getTextL ch ++ getTextL rest

/-- `tag.get_text()`. -/
def getText : Node → Str
  | .text s => s
  | .elem _ _ ch => getTextL ch

/-- `for script in soup(["script", "style"]): script.decompose()` applied
to a forest: remove every `script`/`style` element together with its whole
subtree. -/
def removeSSL : NodeForest → NodeForest
  | .nil => .nil
  | .cons (.text s) rest => .cons (.text s) (removeSSL rest)
  | .cons (.elem tg a ch) rest =>
    if tg == ("script".toList) || tg == ("style".toList) then removeSSL rest
    else .cons (.elem tg a (removeSSL ch)) (removeSSL rest)

/-- Script/style removal at the document root (the root itself is the
`[document]` node and is never decomposed). -/
def removeSS : Node → Node
  | .text s => .text s
  | .elem tg a ch => .elem tg a (removeSSL ch)

/-- No `script`/`style` element occurs in the forest. -/
def noSSL : NodeForest → Bool
  | .nil => true
  | .cons (.text _) rest => noSSL rest
  | .cons (.elem tg _ ch) rest =>
    !(tg == ("script".toList) || tg == ("style".toList)) && noSSL ch &&
      noSSL rest

/-- No `script`/`style` element occurs among the descendants of the root. -/
def noScriptStyle : Node → Bool
  | .text _ => true
  | .elem _ _ ch => noSSL ch

/-- Python `x or y` on `find` results: a bs4 `Tag` defines `__bool__`
to return `True` unconditionally (a tag is non-None even if it has no
contents), so only a `None` result falls through to `y`. -/
def pyOr (a b : Option Node) : Option Node :=
  match a with
  | some n => some n
  | none => b

/-- The `class_=re.compile(r'content|main|article')` test: the tag has a
class attribute in which one of the three words occurs (the pattern has no
spaces, so searching the raw attribute string is equivalent to searching
each class token). -/
def classMatch (a : List (Str × Str)) : Bool :=
  match attrGet a ("class".toList) with
  | some v =>
    hasSub v ("content".toList) || hasSub v ("main".toList) ||
      hasSub v ("article".toList)
  | none => false

/-- `soup.find('div', class_=re.compile(r'content|main|article'))`. -/
def find_div_content (n : Node) : Option Node :=
  nodeFind (fun tg a => tg == ("div".toList) && classMatch a) n

/-- main.py line 90: `soup.find('main') or soup.find('article') or
soup.find('div', class_=...)`. -/
def find_main_content (n : Node) : Option Node :=
  pyOr (nodeFindTag n ("main".toList))
    (pyOr (nodeFindTag n ("article".toList)) (find_div_content n))

/-- main.py lines 95–97: `body = soup.find('body');
text = body.get_text() if body else soup.get_text()` — a found `body`
tag is unconditionally truthy, so `if body` only distinguishes `None`. -/
def body_text (n : Node) : Str :=
  match nodeFindTag n ("body".toList) with
  | some b => getText b
  | none => getText n

/-- main.py lines 92–97: text of the selected region, falling back to
the body and then to the whole soup; `if main_content:` only
distinguishes `None`, since a found tag is unconditionally truthy. -/
def region_text (n : Node) : Str :=
  match find_main_content n with
  | some m => getText m
  | none => body_text n

/-- `re.compile(r'^og:')` searched against an attribute value: the value
starts with `og:`. -/
def startsOg : Str → Bool
  | 'o' :: 'g' :: ':' :: _ => true
  | _ => false

/-- Python `str.replace('og:', '')`: delete every non-overlapping
occurrence of `og:`, scanning left to right. -/
def removeOgOcc : Str → Str
  | 'o' :: 'g' :: ':' :: rest => removeOgOcc rest
  | c :: rest => c :: removeOgOcc rest
  | [] => []

/-- `soup.find_all('meta', property=re.compile(r'^og:'))` below the root. -/
def og_meta_tags (n : Node) : List Node :=
  match n with
  | .text _ => []
  | .elem _ _ ch =>
    findAllBy
      (fun tg a =>
        tg == ("meta".toList) &&
          (match attrGet a ("property".toList) with
           | some v => startsOg v
           | none => false)) ch

/-- main.py lines 83–86 for one Open Graph tag: the key/value pair it
stores, if any (`property_name and content` must both be non-empty). -/
def ogEntryOf : Node → Option (Str × Str)
  | .elem _ a _ =>
    let pn := removeOgOcc (attrGetD a ("property".toList) [])
    let c := attrGetD a ("content".toList) []
    if !pn.isEmpty && !c.isEmpty then some ((("og_".toList) ++ pn, c))
    else none
  | .text _ => none

/-- Python `dict` assignment `d[k] = v`: replace in place or append. -/
def dictSet : List (Str × Str) → Str → Str → List (Str × Str)
  | [], k, v => [(k, v)]
  | (k0, v0) :: rest, k, v =>
    if k0 == k then (k, v) :: rest else (k0, v0) :: dictSet rest k v

/-- Python `d.get(k)`. -/
def dictGet : List (Str × Str) → Str → Option Str
  | [], _ => none
  | (k0, v) :: rest, k => if k0 == k then some v else dictGet rest k

/-- `extract_text_from_html(html_content, url)` (main.py lines 53–104),
taking the already-parsed soup.  Returns `(text, title, metadata)`.  The
`url` argument is unused, as in the source. -/
def extract_text_from_html (soup : Node) (url : Str) :
    Str × Option Str × List (Str × Str) :=
  let cleaned := removeSS soup
  let title : Option Str :=
    match nodeFindTag cleaned ("title".toList) with
    | some t => some (pyStrip (getText t))
    | none => none
  let md0 : List (Str × Str) := []
  let md1 :=
    match nodeFind
        (fun tg a =>
          tg == ("meta".toList) &&
            (attrGet a ("name".toList) == some ("description".toList)))
        cleaned with
    | some t =>
      dictSet md0 ("description".toList)
        (match t with
         | .elem _ a _ => attrGetD a ("content".toList) []
         | .text _ => [])
    | none => md0
  let md2 :=
    match nodeFind
        (fun tg a =>
          tg == ("meta".toList) &&
            (attrGet a ("name".toList) == some ("keywords".toList)))
        cleaned with
    | some t =>
      dictSet md1 ("keywords".toList)
        (match t with
         | .elem _ a _ => attrGetD a ("content".toList) []
         | .text _ => [])
    | none => md1
  let md3 :=
    (og_meta_tags cleaned).foldl
      (fun d t =>
        match ogEntryOf t with
        | some kv => dictSet d kv.1 kv.2
        | none => d) md2
  (pyNormalize (region_text cleaned), title, md3)

/-- The entries the Open Graph loop of `extract_text_from_html` writes, in
document order. -/
def og_entries (n : Node) : List (Str × Str) :=
  (og_meta_tags n).filterMap ogEntryOf

/-- Value of the last entry with a given key, if any. -/
def lastVal (es : List (Str × Str)) (k : Str) : Option Str :=
  ((es.filter (fun e => e.1 == k)).map (fun e => e.2)).getLast?

/-!
## The request handlers

`fetch_url_content` and `analyze_url` (main.py lines 114–271).
-/

/-- A JSON value, as far as the handler inspects it (`json.loads` result:
only `isinstance(json_data, dict)` and `.keys()` are read, so numbers are
carried as their literal text). -/
inductive Json where
  | null
  | jbool (b : Bool)
  | jnum (lit : Str)
  | jstr (s : Str)
  | jarr (xs : List Json)
  | jobj (kvs : List (Str × Json))

/-- `list(json_data.keys()) if isinstance(json_data, dict) else []`. -/
def topKeys : Json → List Str
  | .jobj kvs => kvs.map (fun kv => kv.1)
  | _ => []

/-- A metadata value of `URLContentResponse.metadata` (`Dict[str, Any]`):
either a string (description/keywords/og values) or the `json_keys`
list. -/
inductive MetaVal where
  | strv (s : Str)
  | keys (ks : List Str)

/-- External library behaviour consumed by `fetch_url_content`:
`BeautifulSoup` parsing, `json.loads` (`none` is a `JSONDecodeError`),
`json.dumps(..., indent=2)`, and the message `requests` attaches to the
`HTTPError` that `raise_for_status` raises for a given status code. -/
structure ExtLib where
  parseHtml : Str → Node
  loads : Str → Option Json
  dumps : Json → Str
  raiseMsg : Nat → Str

/-- Pydantic `URLContentResponse`. -/
structure URLContentResponse where
  url : Str
  title : Option Str
  content : Str
  content_type : Str
  status_code : Nat
  word_count : Nat
  metadata : List (Str × MetaVal)

/-- Pydantic `URLAnalysisResponse`. -/
structure URLAnalysisResponse where
  url : Str
  is_accessible : Bool
  content_type : Option Str
  content_length : Option Nat
  status_code : Option Nat
  error_message : Option Str

/-- A FastAPI `HTTPException(status_code, detail)` escaping a handler. -/
structure HErr where
  status_code : Nat
  detail : Str

/-- An exception raised inside the `try:` body of `fetch_url_content`:
either the `requests.exceptions.HTTPError` from `raise_for_status`, or an
`HTTPException` raised by the body itself (the 413 and 422 raises). -/
inductive BodyExc where
  | httpErr (status : Nat)
  | appExc (code : Nat) (detail : Str)

/-- `max_size = 10 * 1024 * 1024` (main.py line 150). -/
def maxSize : Nat := 10 * 1024 * 1024

/-- The streaming read loop (main.py lines 151–155): append each chunk,
then abort with `HTTPException(413, "Content too large (max 10MB)")` as
soon as the accumulated size exceeds `maxSize`. -/
def readLoop (acc : List Nat) : List (List Nat) → Except BodyExc (List Nat)
  | [] => .ok acc
  | c :: rest =>
    let acc2 := acc ++ c
    if acc2.length > maxSize then
      .error (.appExc 413 ("Content too large (max 10MB)".toList))
    else readLoop acc2 rest

/-- Is `b` a UTF-8 continuation byte. -/
def contByte (b : Nat) : Bool := 128 ≤ b && b ≤ 191

/-- `bytes.decode('utf-8')`: strict UTF-8 (no overlongs, no surrogates,
at most U+10FFFF); `none` is a `UnicodeDecodeError`. -/
def utf8Decode : List Nat → Option (List Char)
  | [] => some []
  | b :: rest =>
    if b ≤ 127 then (utf8Decode rest).map (fun t => Char.ofNat b :: t)
    else if b ≤ 193 then none
    else if b ≤ 223 then
      match rest with
      | b2 :: rest2 =>
        if contByte b2 then
          (utf8Decode rest2).map
            (fun t => Char.ofNat ((b - 192) * 64 + (b2 - 128)) :: t)
        else none
      | [] => none
    else if b ≤ 239 then
      match rest with
      | b2 :: b3 :: rest3 =>
        if (if b == 224 then 160 ≤ b2 && b2 ≤ 191
            else if b == 237 then 128 ≤ b2 && b2 ≤ 159
            else contByte b2) && contByte b3 then
          (utf8Decode rest3).map
            (fun t =>
              Char.ofNat
                ((b - 224) * 4096 + (b2 - 128) * 64 + (b3 - 128)) :: t)
        else none
      | _ => none
    else if b ≤ 244 then
      match rest with
      | b2 :: b3 :: b4 :: rest4 =>
        if (if b == 240 then 144 ≤ b2 && b2 ≤ 191
            else if b == 244 then 128 ≤ b2 && b2 ≤ 143
            else contByte b2) && contByte b3 && contByte b4 then
          (utf8Decode rest4).map
            (fun t =>
              Char.ofNat
                ((b - 240) * 262144 + (b2 - 128) * 4096 +
                  (b3 - 128) * 64 + (b4 - 128)) :: t)
        else none
      | _ => none
    else none

/-- `bytes.decode('latin-1')`: maps every byte value `b < 256` to the
code point `b`; it fails on no byte sequence. -/
def latin1Bytes (bs : List Nat) : Option Str :=
  if bs.all (fun b => b < 256) then some (bs.map (fun b => Char.ofNat b))
  else none

/-- The decode cascade (main.py lines 157–164): UTF-8, then Latin-1, then
`HTTPException(422, "Unable to decode content as text")`. -/
def decodeContent (bs : List Nat) : Except BodyExc Str :=
  match utf8Decode bs with
  | some t => .ok t
  | none =>
    match latin1Bytes bs with
    | some t => .ok t
    | none => .error (.appExc 422 ("Unable to decode content as text".toList))

/-- The content-type dispatch (main.py lines 169–179): HTML extraction
when the content type contains `text/html` and `extract_text` is set, else
JSON pretty-printing with a silent fallback to the raw text, else the raw
text. Returns `(content, title, metadata)`. -/
def processContent (ext : ExtLib) (url : Str) (content_type : Str)
    (extract_text : Bool) (text0 : Str) :
    Str × Option Str × List (Str × MetaVal) :=
  if hasSub content_type ("text/html".toList) && extract_text then
    let r := extract_text_from_html (ext.parseHtml text0) url
    (r.1, r.2.1, r.2.2.map (fun kv => (kv.1, MetaVal.strv kv.2)))
  else if hasSub content_type ("application/json".toList) then
    match ext.loads text0 with
    | some j =>
      (ext.dumps j, none, [(("json_keys".toList), MetaVal.keys (topKeys j))])
    | none => (text0, none, [])
  else (text0, none, [])

/-- Outcome of the outbound `requests.get(...)` call and its streamed
body: on success the status code, the `content-type` header and the chunk
sequence `iter_content` yields; otherwise the exception class raised. -/
inductive FetchOutcome where
  | success (status : Nat) (ctHdr : Option Str) (chunks : List (List Nat))
  | timeout
  | connError
  | httpError (status : Nat) (msg : Str)
  | reqExc (msg : Str)
  | otherExc (msg : Str)

/-- The body of the `try:` block of `fetch_url_content` on a successful
`requests.get` (main.py lines 144–192): `raise_for_status`, the capped
streaming read, the decode cascade, the content-type dispatch and the word
count `len(text_content.split())`. -/
def fetchBody (ext : ExtLib) (url : Str) (extract_text : Bool) (st : Nat)
    (ctHdr : Option Str) (chunks : List (List Nat)) :
    Except BodyExc URLContentResponse :=
  if 400 ≤ st ∧ st < 600 then .error (.httpErr st)
  else
    let content_type := pyLower (ctHdr.getD [])
    match readLoop [] chunks with
    | .error e => .error e
    | .ok content =>
      match decodeContent content with
      | .error e => .error e
      | .ok text0 =>
        let pcr := processContent ext url content_type extract_text text0
        .ok
          ⟨url, pcr.2.1, pcr.1, content_type, st,
            (pySplitWS pcr.1).length, pcr.2.2⟩

/-- The `except` clauses of `fetch_url_content` applied to the result of
the `try:` body: a `requests` `HTTPError` from `raise_for_status`
propagates the upstream status with an `HTTP error: ` message, while an
`HTTPException` raised inside the body is caught by `except Exception`
and re-raised as
`HTTPException(500, "An internal error occurred: " + str(e))`, with
`str(HTTPException)` being `"<code>: <detail>"`. -/
def exceptClauses (ext : ExtLib) (res : Except BodyExc URLContentResponse) :
    Except HErr URLContentResponse :=
  match res with
  | .ok r => .ok r
  | .error (.httpErr s) =>
    .error ⟨s, ("HTTP error: ".toList) ++ ext.raiseMsg s⟩
  | .error (.appExc code detail) =>
    .error
      ⟨500,
        ("An internal error occurred: ".toList) ++
          ((Nat.repr code).toList) ++ (": ".toList) ++ detail⟩

/-- `GET /fetch` (main.py lines 114–203): the outcome dispatched through
the `try:` body and the `except` clauses (an `HTTPException` raised inside
the body is not a `requests` exception, so it falls to
`except Exception`, handled in `exceptClauses`). -/
def fetch_url_content (ext : ExtLib) (url : Str) (extract_text : Bool)
    (o : FetchOutcome) : Except HErr URLContentResponse :=
  match o with
  | .success st ctHdr chunks =>
    exceptClauses ext (fetchBody ext url extract_text st ctHdr chunks)
  | .timeout => .error ⟨408, ("Request timeout".toList)⟩
  | .connError => .error ⟨503, ("Unable to connect to the URL".toList)⟩
  | .httpError s msg => .error ⟨s, ("HTTP error: ".toList) ++ msg⟩
  | .reqExc msg => .error ⟨500, ("Request error: ".toList) ++ msg⟩
  | .otherExc msg =>
    .error ⟨500, ("An internal error occurred: ".toList) ++ msg⟩

/-- Outcome of the outbound `requests.head(...)` call in `analyze_url`:
on success the status code and the `content-type` / `content-length`
headers; otherwise the exception class raised (`httpError` carries the
upstream status of the response `requests` attaches to the error). -/
inductive HeadOutcome where
  | success (status : Nat) (ctHdr : Option Str) (clHdr : Option Str)
  | timeout
  | connError
  | httpError (status : Nat) (msg : Str)
  | reqExc (msg : Str)
  | otherExc (msg : Str)

/-- Python `int(s)` for a string of ASCII digits. -/
def strToNat (s : Str) : Nat :=
  s.foldl (fun n c => n * 10 + (c.toNat - 48)) 0

/-- `True` iff `o` is one of the exception outcomes. -/
def isFailureOutcome : HeadOutcome → Bool
  | .success _ _ _ => false
  | _ => true

/-- `GET /analyze` (main.py lines 205–271): every branch, success or
exception, returns a `URLAnalysisResponse`; `content_length` is parsed
only when the header is a non-empty digit string
(`content_length and content_length.isdigit()`). -/
def analyze_url (url : Str) (o : HeadOutcome) :
    Except HErr URLAnalysisResponse :=
  match o with
  | .success st ctHdr clHdr =>
    let content_length :=
      match clHdr with
      | some s =>
        if !s.isEmpty && s.all Char.isDigit then some (strToNat s) else none
      | none => none
    .ok ⟨url, true, some (ctHdr.getD []), content_length, some st, none⟩
  | .timeout => .ok ⟨url, false, none, none, none, some ("Request timeout".toList)⟩
  | .connError =>
    .ok ⟨url, false, none, none, none,
      some ("Unable to connect to the URL".toList)⟩
  | .httpError st msg =>
    .ok ⟨url, false, none, none, some st,
      some (("HTTP error: ".toList) ++ msg)⟩
  | .reqExc msg =>
    .ok ⟨url, false, none, none, none,
      some (("Request error: ".toList) ++ msg)⟩
  | .otherExc msg =>
    .ok ⟨url, false, none, none, none,
      some (("An internal error occurred: ".toList) ++ msg)⟩

/-- `get_user_agent()` (main.py lines 106–108). -/
def get_user_agent : Str :=
  ("Mozilla/5.0 (compatible; URL-Access-Tool/1.0; +https://github.com/open-webui/openapi-servers)".toList)

/-- `GET /health` (main.py lines 273–276). -/
def health_check : Str × Str × Str × Str :=
  ((("status".toList), ("healthy".toList), ("service".toList),
    ("url-access-api".toList)))

/-!
## Concrete fixtures (used by witnesses and counterexamples)
-/

/-- External behaviour fixture: trivial parser, failing `json.loads`,
empty `dumps` and empty `raise_for_status` messages. -/
def ext0 : ExtLib :=
  ⟨fun _ => Node.text [], fun _ => none, fun _ => [], fun _ => []⟩

/-- External behaviour fixture mirroring `BeautifulSoup` on an input with
no markup at all: the whole input becomes a single text node under the
`[document]` root; `json.loads` fails on it. -/
def extCex : ExtLib :=
  ⟨fun s => Node.elem ("[document]".toList) [] (forestOf [Node.text s]),
   fun _ => none, fun _ => [], fun _ => []⟩

/-- A streamed body one byte over the 10 MiB cap. -/
def bigChunk : List Nat := List.replicate (maxSize + 1) 0

/-- A parsed document containing a `main` element. -/
def soupMainW : Node :=
  .elem ("[document]".toList) []
    (forestOf [.elem ("body".toList) []
      (forestOf [.elem ("main".toList) []
        (forestOf [.text ("hi".toList)])])])

/-- A parsed document with one Open Graph meta tag whose `content`
attribute is empty. -/
def soupOgEmpty : Node :=
  .elem ("[document]".toList) []
    (forestOf [.elem ("head".toList) []
      (forestOf [.elem ("meta".toList)
        [(("property".toList), ("og:title".toList)),
         (("content".toList), [])] .nil])])

/-- A parsed document with one Open Graph meta tag `og:title` with
content `T`. -/
def soupOgW : Node :=
  .elem ("[document]".toList) []
    (forestOf [.elem ("head".toList) []
      (forestOf [.elem ("meta".toList)
        [(("property".toList), ("og:title".toList)),
         (("content".toList), ("T".toList))] .nil])])

/-!
## Helper lemmas: strip, whitespace and the no-double-space invariant
-/

theorem head?_dropWhile_not {α : Type} (p : α → Bool) :
    ∀ l : List α, ∀ c, (l.dropWhile p).head? = some c → p c = false := by
  intro l
  induction l with
  | nil => simp
  | cons a l ih =>
    intro c h
    rw [List.dropWhile_cons] at h
    by_cases hp : p a = true
    · rw [if_pos hp] at h
      exact ih c h
    · rw [if_neg hp] at h
      simp only [List.head?_cons, Option.some.injEq] at h
      subst h
      exact Bool.not_eq_true _ ▸ (by simpa using hp)

theorem getLast?_dropWhile_ne {α : Type} (p : α → Bool) (l : List α)
    (h : l.dropWhile p ≠ []) :
    (l.dropWhile p).getLast? = l.getLast? := by
  obtain ⟨t, ht⟩ := List.dropWhile_suffix (l := l) p
  conv_rhs => rw [← ht]
  rw [List.getLast?_append_of_ne_nil _ h]

theorem pyStrip_head {l : Str} {c : Char} (h : (pyStrip l).head? = some c) :
    isPySpace c = false := by
  unfold pyStrip at h
  rw [List.head?_reverse] at h
  by_cases hB :
      List.dropWhile isPySpace (List.dropWhile isPySpace l).reverse = []
  · rw [hB] at h
    simp at h
  · rw [getLast?_dropWhile_ne _ _ hB, List.getLast?_reverse] at h
    exact head?_dropWhile_not _ _ _ h

theorem pyStrip_last {l : Str} {c : Char}
    (h : (pyStrip l).getLast? = some c) : isPySpace c = false := by
  unfold pyStrip at h
  rw [List.getLast?_reverse] at h
  exact head?_dropWhile_not _ _ _ h

theorem mem_pyStrip {l : Str} {c : Char} (h : c ∈ pyStrip l) : c ∈ l := by
  unfold pyStrip at h
  rw [List.mem_reverse] at h
  have h2 :=
    ((List.dropWhile_suffix (l := (List.dropWhile isPySpace l).reverse)
      isPySpace).sublist.subset) h
  rw [List.mem_reverse] at h2
  exact ((List.dropWhile_suffix (l := l) isPySpace).sublist.subset) h2

theorem noDbl_of_suffix {l l' : Str} (h : l' <:+ l) (hd : NoDbl l) :
    NoDbl l' := by
  obtain ⟨t, rfl⟩ := h
  exact (List.chain'_append.mp hd).2.1

theorem noDbl_reverse {l : Str} (h : NoDbl l) : NoDbl l.reverse := by
  rw [NoDbl, List.chain'_reverse]
  exact h.imp (fun a b hab => fun hc => hab ⟨hc.2, hc.1⟩)

theorem noDbl_pyStrip {l : Str} (h : NoDbl l) : NoDbl (pyStrip l) := by
  unfold pyStrip
  exact noDbl_reverse
    (noDbl_of_suffix (List.dropWhile_suffix _)
      (noDbl_reverse (noDbl_of_suffix (List.dropWhile_suffix _) h)))

theorem pyNormalize_eq_join (t : Str) : pyNormalize t = joinSp (normFrags t) :=
  rfl

theorem splitDouble_ne_nil : ∀ l : Str, splitDouble l ≠ [] := by
  intro l
  induction l using splitDouble.induct with
  | case1 => simp [splitDouble]
  | case2 rest ih => simp [splitDouble]
  | case3 c rest h s ss heq ih =>
    simp only [splitDouble, heq]
    simp
  | case4 c rest h heq ih =>
    simp only [splitDouble, heq]
    simp

theorem splitDouble_head :
    ∀ l s ss, splitDouble l = s :: ss → s.head? = none ∨ s.head? = l.head? := by
  intro l
  induction l using splitDouble.induct with
  | case1 =>
    intro s ss h
    simp only [splitDouble, List.cons.injEq] at h
    rw [← h.1]
    exact Or.inl rfl
  | case2 rest ih =>
    intro s ss h
    simp only [splitDouble, List.cons.injEq] at h
    rw [← h.1]
    exact Or.inl rfl
  | case3 c rest h0 s0 ss0 heq ih =>
    intro s ss h
    simp only [splitDouble, heq, List.cons.injEq] at h
    rw [← h.1]
    exact Or.inr rfl
  | case4 c rest h0 heq ih =>
    intro s ss h
    simp only [splitDouble, heq, List.cons.injEq] at h
    rw [← h.1]
    exact Or.inr rfl

theorem splitDouble_noDbl : ∀ l : Str, ∀ s ∈ splitDouble l, NoDbl s := by
  intro l
  induction l using splitDouble.induct with
  | case1 =>
    intro s hs
    simp only [splitDouble, List.mem_singleton] at hs
    subst hs
    exact List.chain'_nil
  | case2 rest ih =>
    intro s hs
    simp only [splitDouble, List.mem_cons] at hs
    rcases hs with rfl | hs
    · exact List.chain'_nil
    · exact ih s hs
  | case3 c rest h0 s0 ss0 heq ih =>
    intro s hs
    simp only [splitDouble, heq, List.mem_cons] at hs
    rcases hs with rfl | hs
    · rw [NoDbl, List.chain'_cons']
      constructor
      · intro y hy
        intro hcy
        rcases splitDouble_head rest s0 ss0 heq with hn | hh
        · rw [hn] at hy
          simp at hy
        · rw [hh] at hy
          cases rest with
          | nil => simp at hy
          | cons b rest' =>
            simp only [List.head?_cons, Option.mem_def, Option.some.injEq] at hy
            exact h0 rest' hcy.1 (by rw [hy, hcy.2])
      · exact ih s0 (heq ▸ List.mem_cons_self s0 ss0)
    · exact ih s (heq ▸ List.mem_cons_of_mem s0 hs)
  | case4 c rest h0 heq ih =>
    intro s hs
    simp only [splitDouble, heq, List.mem_singleton] at hs
    subst hs
    exact List.chain'_singleton c

theorem splitDouble_subset :
    ∀ l : Str, ∀ s ∈ splitDouble l, ∀ c ∈ s, c ∈ l := by
  intro l
  induction l using splitDouble.induct with
  | case1 =>
    intro s hs
    simp only [splitDouble, List.mem_singleton] at hs
    subst hs
    simp
  | case2 rest ih =>
    intro s hs c hc
    simp only [splitDouble, List.mem_cons] at hs
    rcases hs with rfl | hs
    · simp at hc
    · exact List.mem_cons_of_mem _ (List.mem_cons_of_mem _ (ih s hs c hc))
  | case3 c0 rest h0 s0 ss0 heq ih =>
    intro s hs c hc
    simp only [splitDouble, heq, List.mem_cons] at hs
    rcases hs with rfl | hs
    · rcases List.mem_cons.mp hc with rfl | hc
      · exact List.mem_cons_self _ _
      · exact List.mem_cons_of_mem _ (ih s0 (heq ▸ List.mem_cons_self s0 ss0) c hc)
    · exact List.mem_cons_of_mem _ (ih s (heq ▸ List.mem_cons_of_mem s0 hs) c hc)
  | case4 c0 rest h0 heq ih =>
    intro s hs c hc
    simp only [splitDouble, heq, List.mem_singleton] at hs
    subst hs
    rcases List.mem_singleton.mp hc with rfl
    exact List.mem_cons_self _ _

theorem pySplitlines_not_lb :
    ∀ l : Str, ∀ s ∈ pySplitlines l, ∀ c ∈ s, isPyLineBreak c = false := by
  intro l
  induction l using pySplitlines.induct with
  | case1 =>
    intro s hs
    simp [pySplitlines] at hs
  | case2 rest ih =>
    intro s hs c hc
    simp only [pySplitlines, List.mem_cons] at hs
    rcases hs with rfl | hs
    · simp at hc
    · exact ih s hs c hc
  | case3 c0 rest h0 hlb ih =>
    intro s hs c hc
    simp only [pySplitlines, if_pos hlb, List.mem_cons] at hs
    rcases hs with rfl | hs
    · simp at hc
    · exact ih s hs c hc
  | case4 c0 rest h0 hlb s0 ss0 heq ih =>
    intro s hs c hc
    simp only [pySplitlines, if_neg hlb, heq, List.mem_cons] at hs
    rcases hs with rfl | hs
    · rcases List.mem_cons.mp hc with rfl | hc
      · exact Bool.not_eq_true _ ▸ (by simpa using hlb)
      · exact ih s0 (heq ▸ List.mem_cons_self s0 ss0) c hc
    · exact ih s (heq ▸ List.mem_cons_of_mem s0 hs) c hc
  | case5 c0 rest h0 hlb heq ih =>
    intro s hs c hc
    simp only [pySplitlines, if_neg hlb, heq, List.mem_singleton] at hs
    subst hs
    rcases List.mem_singleton.mp hc with rfl
    exact Bool.not_eq_true _ ▸ (by simpa using hlb)

theorem pySplitlines_eq_self :
    ∀ l : Str, l ≠ [] → (∀ c ∈ l, isPyLineBreak c = false) →
      pySplitlines l = [l] := by
  intro l
  induction l using pySplitlines.induct with
  | case1 =>
    intro h _
    exact absurd rfl h
  | case2 rest ih =>
    intro _ hnl
    exact absurd (hnl '\r' (List.mem_cons_self _ _)) (by decide)
  | case3 c0 rest h0 hlb ih =>
    intro _ hnl
    exact absurd (hnl c0 (List.mem_cons_self _ _)) (by simp [hlb])
  | case4 c0 rest h0 hlb s0 ss0 heq ih =>
    intro _ hnl
    have hrest : rest ≠ [] := by
      intro hr
      rw [hr] at heq
      simp [pySplitlines] at heq
    have := ih hrest (fun c hc => hnl c (List.mem_cons_of_mem _ hc))
    rw [heq] at this
    rcases List.cons.injEq .. ▸ this with ⟨rfl, rfl⟩
    simp [pySplitlines, if_neg hlb, heq]
  | case5 c0 rest h0 hlb heq ih =>
    intro _ hnl
    have hrest : rest = [] := by
      by_contra hr
      have := ih hr (fun c hc => hnl c (List.mem_cons_of_mem _ hc))
      rw [heq] at this
      exact List.noConfusion this
    subst hrest
    simp [pySplitlines, if_neg hlb]

theorem splitDouble_eq_self : ∀ l : Str, NoDbl l → splitDouble l = [l] := by
  intro l
  induction l using splitDouble.induct with
  | case1 => intro _; rfl
  | case2 rest ih =>
    intro h
    rcases (List.chain'_cons.mp h).1 ⟨rfl, rfl⟩
  | case3 c0 rest h0 s0 ss0 heq ih =>
    intro h
    have hr : NoDbl rest := (List.chain'_cons'.mp h).2
    have := ih hr
    rw [heq] at this
    rcases List.cons.injEq .. ▸ this with ⟨rfl, rfl⟩
    simp [splitDouble, heq]
  | case4 c0 rest h0 heq ih =>
    intro h
    have hr : NoDbl rest := (List.chain'_cons'.mp h).2
    have := ih hr
    rw [heq] at this
    exact List.noConfusion this

theorem dropWhile_eq_self {α : Type} (p : α → Bool) (l : List α)
    (h : ∀ c, l.head? = some c → p c = false) : l.dropWhile p = l := by
  cases l with
  | nil => rfl
  | cons a l =>
    rw [List.dropWhile_cons, if_neg]
    rw [h a rfl]
    simp

theorem pyStrip_eq_self (l : Str)
    (hh : ∀ c, l.head? = some c → isPySpace c = false)
    (hl : ∀ c, l.getLast? = some c → isPySpace c = false) :
    pyStrip l = l := by
  unfold pyStrip
  rw [dropWhile_eq_self _ l hh]
  rw [dropWhile_eq_self _ l.reverse
    (fun c hc => hl c ((List.head?_reverse l) ▸ hc))]
  exact List.reverse_reverse l

theorem joinSp_head (f : Str) (rest : List Str) (h : f ≠ []) :
    (joinSp (f :: rest)).head? = f.head? := by
  cases rest with
  | nil => rfl
  | cons g rest =>
    cases f with
    | nil => exact absurd rfl h
    | cons a f' => rfl

theorem joinSp_ne_nil (f : Str) (rest : List Str) (h : f ≠ []) :
    joinSp (f :: rest) ≠ [] := by
  intro hj
  have := joinSp_head f rest h
  rw [hj] at this
  cases f with
  | nil => exact h rfl
  | cons a f' => simp at this

theorem getLast?_cons_of_ne {α : Type} (a : α) (l : List α) (h : l ≠ []) :
    (a :: l).getLast? = l.getLast? := by
  cases l with
  | nil => exact absurd rfl h
  | cons b l' => simp [List.getLast?_cons_cons]

theorem joinSp_last :
    ∀ F : List Str, (∀ f ∈ F, f ≠ []) → ∀ c,
      (joinSp F).getLast? = some c → ∃ f ∈ F, f.getLast? = some c := by
  intro F
  induction F with
  | nil =>
    intro _ c h
    simp [joinSp] at h
  | cons f rest ih =>
    intro hne c h
    cases rest with
    | nil => exact ⟨f, List.mem_singleton_self f, h⟩
    | cons g rest' =>
      rw [show joinSp (f :: g :: rest') = f ++ ' ' :: joinSp (g :: rest')
          from rfl] at h
      rw [List.getLast?_append_of_ne_nil _ (by simp)] at h
      rw [getLast?_cons_of_ne _ _
        (joinSp_ne_nil g rest' (hne g (by simp)))] at h
      obtain ⟨f0, hf0, hl0⟩ :=
        ih (fun x hx => hne x (List.mem_cons_of_mem _ hx)) c h
      exact ⟨f0, List.mem_cons_of_mem _ hf0, hl0⟩

theorem joinSp_mem :
    ∀ F : List Str, ∀ c ∈ joinSp F, c = ' ' ∨ ∃ f ∈ F, c ∈ f := by
  intro F
  induction F with
  | nil =>
    intro c hc
    simp [joinSp] at hc
  | cons f rest ih =>
    intro c hc
    cases rest with
    | nil => exact Or.inr ⟨f, List.mem_singleton_self f, hc⟩
    | cons g rest' =>
      rw [show joinSp (f :: g :: rest') = f ++ ' ' :: joinSp (g :: rest')
          from rfl] at hc
      rcases List.mem_append.mp hc with hc | hc
      · exact Or.inr ⟨f, List.mem_cons_self _ _, hc⟩
      · rcases List.mem_cons.mp hc with rfl | hc
        · exact Or.inl rfl
        · rcases ih c hc with hsp | ⟨f0, hf0, hcf⟩
          · exact Or.inl hsp
          · exact Or.inr ⟨f0, List.mem_cons_of_mem _ hf0, hcf⟩

theorem joinSp_noDbl :
    ∀ F : List Str,
      (∀ f ∈ F, f ≠ [] ∧
        (∀ c, f.head? = some c → isPySpace c = false) ∧
        (∀ c, f.getLast? = some c → isPySpace c = false) ∧ NoDbl f) →
      NoDbl (joinSp F) := by
  intro F
  induction F with
  | nil => intro _; exact List.chain'_nil
  | cons f rest ih =>
    intro hp
    cases rest with
    | nil => exact (hp f (List.mem_singleton_self f)).2.2.2
    | cons g rest' =>
      rw [show joinSp (f :: g :: rest') = f ++ ' ' :: joinSp (g :: rest')
          from rfl]
      rw [NoDbl, List.chain'_append]
      refine ⟨(hp f (List.mem_cons_self _ _)).2.2.2, ?_, ?_⟩
      · rw [List.chain'_cons']
        constructor
        · intro y hy hcy
          have hg := hp g (by simp)
          rw [joinSp_head g rest' hg.1] at hy
          have := hg.2.1 y hy
          rw [hcy.2] at this
          exact absurd this (by decide)
        · exact ih (fun x hx => hp x (List.mem_cons_of_mem _ hx))
      · intro x hx y hy hcy
        have := (hp f (List.mem_cons_self _ _)).2.2.1 x hx
        rw [hcy.1] at this
        exact absurd this (by decide)

theorem normFrags_props :
    ∀ t f, f ∈ normFrags t →
      f ≠ [] ∧ (∀ c ∈ f, isPyLineBreak c = false) ∧
        (∀ c, f.head? = some c → isPySpace c = false) ∧
        (∀ c, f.getLast? = some c → isPySpace c = false) ∧ NoDbl f := by
  intro t f hf
  rw [normFrags, List.mem_filter] at hf
  obtain ⟨hmem, hne⟩ := hf
  have hfne : f ≠ [] := by
    intro h
    rw [h] at hne
    simp at hne
  obtain ⟨line', hline', hfin⟩ := List.mem_flatMap.mp hmem
  obtain ⟨line, hline, rfl⟩ := List.mem_map.mp hline'
  obtain ⟨seg, hseg, rfl⟩ := List.mem_map.mp hfin
  refine ⟨hfne, ?_, fun c hc => pyStrip_head hc,
    fun c hc => pyStrip_last hc, noDbl_pyStrip (splitDouble_noDbl _ _ hseg)⟩
  intro c hc
  have : c ∈ pyStrip line := splitDouble_subset _ _ hseg c (mem_pyStrip hc)
  exact pySplitlines_not_lb t line hline c (mem_pyStrip this)

theorem pyNormalize_props (t : Str) :
    NoDbl (pyNormalize t) ∧
      (∀ c ∈ pyNormalize t, isPyLineBreak c = false) ∧
      (∀ c, (pyNormalize t).head? = some c → isPySpace c = false) ∧
      (∀ c, (pyNormalize t).getLast? = some c → isPySpace c = false) := by
  rw [pyNormalize_eq_join]
  refine ⟨joinSp_noDbl _ (fun f hf => ?_), ?_, ?_, ?_⟩
  · obtain ⟨h1, _, h3, h4, h5⟩ := normFrags_props t f hf
    exact ⟨h1, h3, h4, h5⟩
  · intro c hc
    rcases joinSp_mem _ c hc with rfl | ⟨f, hf, hcf⟩
    · decide
    · exact (normFrags_props t f hf).2.1 c hcf
  · intro c hc
    cases hF : normFrags t with
    | nil =>
      rw [hF] at hc
      simp [joinSp] at hc
    | cons f rest =>
      rw [hF] at hc
      rw [joinSp_head f rest
        ((normFrags_props t f (hF ▸ List.mem_cons_self f rest)).1)] at hc
      exact (normFrags_props t f (hF ▸ List.mem_cons_self f rest)).2.2.1 c hc
  · intro c hc
    obtain ⟨f, hf, hl⟩ :=
      joinSp_last (normFrags t) (fun x hx => (normFrags_props t x hx).1) c hc
    exact (normFrags_props t f hf).2.2.2.1 c hl

theorem pyNormalize_nil : pyNormalize [] = [] := rfl

theorem pyNormalize_fixed (t : Str)
    (hlb : ∀ c ∈ t, isPyLineBreak c = false)
    (hh : ∀ c, t.head? = some c → isPySpace c = false)
    (hl : ∀ c, t.getLast? = some c → isPySpace c = false)
    (hd : NoDbl t) : pyNormalize t = t := by
  cases ht : t with
  | nil => exact pyNormalize_nil
  | cons a t' =>
    rw [← ht]
    have hne : t ≠ [] := by rw [ht]; simp
    rw [pyNormalize, pySplitlines_eq_self t hne hlb]
    rw [List.map_singleton, pyStrip_eq_self t hh hl]
    rw [List.flatMap_singleton, splitDouble_eq_self t hd]
    rw [List.map_singleton, pyStrip_eq_self t hh hl]
    have : List.filter (fun c => !c.isEmpty) [t] = [t] := by
      rw [List.filter_cons]
      rw [ht]
      simp
    rw [this]
    rfl

theorem pyNormalize_idem (s : Str) :
    pyNormalize (pyNormalize s) = pyNormalize s := by
  obtain ⟨h1, h2, h3, h4⟩ := pyNormalize_props s
  exact pyNormalize_fixed _ h2 h3 h4 h1

theorem noDbl_hasSub {l : Str} (h : NoDbl l) :
    hasSub l (' ' :: ' ' :: []) = false := by
  induction l with
  | nil => rfl
  | cons c rest ih =>
    rw [hasSub]
    rw [ih ((List.chain'_cons'.mp h).2)]
    rw [Bool.or_false]
    rw [isPre]
    by_cases hc : c = ' '
    · subst hc
      cases rest with
      | nil => rfl
      | cons b rest' =>
        rw [isPre]
        by_cases hb : b = ' '
        · subst hb
          exact absurd ⟨rfl, rfl⟩ (List.chain'_cons.mp h).1
        · have : (' ' == b) = false := by
            simp only [beq_eq_false_iff_ne, ne_eq]
            exact fun he => hb he.symm
          rw [this]
          simp
    · have : (' ' == c) = false := by
        simp only [beq_eq_false_iff_ne, ne_eq]
        exact fun he => hc he.symm
      rw [this]
      simp

/-!
## Helper lemmas: script/style removal, streaming cap, metadata dict
-/

theorem removeSSL_idem : ∀ l : NodeForest, removeSSL (removeSSL l) = removeSSL l := by
  intro l
  induction l using removeSSL.induct with
  | case1 => simp [removeSSL]
  | case2 s rest ih =>
    simp only [removeSSL]
    rw [ih]
  | case3 tg a ch rest hss ih =>
    simp only [removeSSL, if_pos hss]
    exact ih
  | case4 tg a ch rest hss ih1 ih2 =>
    simp only [removeSSL, if_neg hss]
    rw [ih1, ih2]

theorem removeSS_idem (n : Node) : removeSS (removeSS n) = removeSS n := by
  cases n with
  | text s => rfl
  | elem tg a ch =>
    simp only [removeSS]
    rw [removeSSL_idem]

theorem noSSL_removeSSL : ∀ l : NodeForest, noSSL (removeSSL l) = true := by
  intro l
  induction l using removeSSL.induct with
  | case1 => simp [removeSSL, noSSL]
  | case2 s rest ih =>
    simp only [removeSSL, noSSL]
    exact ih
  | case3 tg a ch rest hss ih =>
    simp only [removeSSL, if_pos hss]
    exact ih
  | case4 tg a ch rest hss ih1 ih2 =>
    simp only [removeSSL, if_neg hss, noSSL]
    rw [ih1, ih2]
    simp only [Bool.and_true]
    simpa using hss

theorem noScriptStyle_removeSS (n : Node) :
    noScriptStyle (removeSS n) = true := by
  cases n with
  | text s => rfl
  | elem tg a ch => exact noSSL_removeSSL ch

theorem readLoop_eq :
    ∀ (chunks : List (List Nat)) (acc : List Nat), acc.length ≤ maxSize →
      readLoop acc chunks =
        if acc.length + chunks.flatten.length ≤ maxSize then
          Except.ok (acc ++ chunks.flatten)
        else
          Except.error
            (BodyExc.appExc 413 ("Content too large (max 10MB)".toList)) := by
  intro chunks
  induction chunks with
  | nil =>
    intro acc h
    simp only [readLoop, List.flatten_nil, List.length_nil, Nat.add_zero,
      List.append_nil, if_pos h]
  | cons c rest ih =>
    intro acc h
    rw [readLoop]
    by_cases hbig : (acc ++ c).length > maxSize
    · rw [if_pos hbig, if_neg]
      simp only [List.length_append] at hbig ⊢
      simp only [List.flatten_cons, List.length_append]
      omega
    · rw [if_neg hbig]
      rw [ih (acc ++ c) (Nat.le_of_not_lt hbig)]
      simp only [List.flatten_cons, ← List.append_assoc, List.length_append]
      split_ifs with h1 h2 h3 <;> first | rfl | omega

theorem dictGet_dictSet :
    ∀ (d : List (Str × Str)) (k0 v0 k : Str),
      dictGet (dictSet d k0 v0) k =
        if k0 == k then some v0 else dictGet d k := by
  intro d
  induction d with
  | nil =>
    intro k0 v0 k
    rfl
  | cons e rest ih =>
    intro k0 v0 k
    obtain ⟨k1, v1⟩ := e
    rw [dictSet]
    by_cases h10 : (k1 == k0) = true
    · have h10e : k1 = k0 := by simpa using h10
      subst h10e
      rw [if_pos h10, dictGet, dictGet]
      by_cases hk : (k1 == k) = true
      · rw [if_pos hk, if_pos hk]
      · rw [if_neg hk, if_neg hk, if_neg hk]
    · have h10e : k1 ≠ k0 := by simpa using h10
      rw [if_neg h10, dictGet, dictGet, ih k0 v0 k]
      by_cases h1k : (k1 == k) = true
      · have hke : k1 = k := by simpa using h1k
        have h0k : ¬(k0 == k) = true := by
          simp only [beq_iff_eq]
          intro he
          exact h10e (hke.trans he.symm)
        rw [if_pos h1k, if_neg h0k, if_pos h1k]
      · rw [if_neg h1k, if_neg h1k]

theorem getLast?_cons_eq {α : Type} (a : α) (l : List α) :
    (a :: l).getLast? =
      match l.getLast? with
      | some x => some x
      | none => some a := by
  cases hl : l.getLast? with
  | none =>
    have : l = [] := List.getLast?_eq_none_iff.mp hl
    subst this
    rfl
  | some x =>
    have hne : l ≠ [] := by
      intro h
      rw [h] at hl
      simp at hl
    rw [getLast?_cons_of_ne a l hne, hl]

theorem lastVal_cons (k0 : Str) (v0 : Str) (es : List (Str × Str)) (k : Str) :
    lastVal ((k0, v0) :: es) k =
      match lastVal es k with
      | some v => some v
      | none => if k0 == k then some v0 else none := by
  rw [lastVal, lastVal, List.filter_cons]
  by_cases hk : (k0 == k) = true
  · rw [if_pos hk]
    rw [List.map_cons]
    rw [getLast?_cons_eq]
    cases (List.map (fun e => e.2)
        (List.filter (fun e => e.1 == k) es)).getLast? with
    | none => simp [hk]
    | some v => rfl
  · rw [if_neg hk]
    cases (List.map (fun e => e.2)
        (List.filter (fun e => e.1 == k) es)).getLast? with
    | none => simp [hk]
    | some v => rfl

theorem fold_og_lookup :
    ∀ (ts : List Node) (d : List (Str × Str)) (k : Str),
      dictGet
        (ts.foldl
          (fun d t =>
            match ogEntryOf t with
            | some kv => dictSet d kv.1 kv.2
            | none => d) d) k =
        match lastVal (ts.filterMap ogEntryOf) k with
        | some v => some v
        | none => dictGet d k := by
  intro ts
  induction ts with
  | nil =>
    intro d k
    rfl
  | cons t ts ih =>
    intro d k
    rw [List.foldl_cons, List.filterMap_cons]
    cases he : ogEntryOf t with
    | none =>
      rw [ih d k]
    | some kv =>
      obtain ⟨k0, v0⟩ := kv
      rw [ih (dictSet d k0 v0) k]
      rw [lastVal_cons]
      cases lastVal (ts.filterMap ogEntryOf) k with
      | none =>
        simp only
        rw [dictGet_dictSet]
        by_cases hk : (k0 == k) = true
        · rw [if_pos hk, if_pos hk]
        · rw [if_neg hk, if_neg hk]
      | some v => rfl

/-!
## Claim theorems
-/

theorem append_ne_nil_left {α : Type} (s m : List α) (h : s ≠ []) :
    s ++ m ≠ [] := by
  intro hc
  exact h (List.append_eq_nil.mp hc).1

/-- Claim C4: the `/fetch` size cap is strict.  The streaming read loop
returns the full accumulated body exactly when the total size is at most
10 MiB — so a body of exactly 10 MiB passes without the too-large abort —
and raises the 413 payload-too-large exception exactly when, after
appending some chunk, the accumulated size strictly exceeds 10 MiB (the
check runs after each chunk, so the whole offending chunk is read first). -/
theorem fetch_size_cap_strict (chunks : List (List Nat)) :
    readLoop [] chunks =
      if chunks.flatten.length ≤ maxSize then Except.ok chunks.flatten
      else
        Except.error
          (BodyExc.appExc 413 ("Content too large (max 10MB)".toList)) := by
  have h := readLoop_eq chunks [] (by simp)
  simpa using h

/-- Claim C10: the Latin-1 fallback accepts every byte sequence, so the
decode cascade of `/fetch` always produces text and the 422
unprocessable-content branch is unreachable. -/
theorem latin1_decode_total (bs : List Nat)
    (h : bs.all (fun b => b < 256) = true) :
    (latin1Bytes bs).isSome = true ∧ ∃ t, decodeContent bs = Except.ok t := by
  have hl : latin1Bytes bs = some (bs.map (fun b => Char.ofNat b)) := by
    rw [latin1Bytes, if_pos h]
  constructor
  · rw [hl]
    rfl
  · rw [decodeContent]
    cases hu : utf8Decode bs with
    | some t => exact ⟨t, rfl⟩
    | none =>
      rw [hl]
      exact ⟨_, rfl⟩

/-- Witness for C10 at the concrete byte sequence `[255, 254]` (not valid
UTF-8, decoded by the Latin-1 fallback). -/
theorem latin1_decode_total_app :
    ([255, 254].all (fun b => b < 256) = true) ∧
      ((latin1Bytes [255, 254]).isSome = true ∧
        ∃ t, decodeContent [255, 254] = Except.ok t) :=
  ⟨by decide, latin1_decode_total [255, 254] (by decide)⟩

/-- Claim C2: `analyze_url` never produces a transport-level error: every
outcome of the HEAD request yields an `Except.ok` envelope, and every
failure outcome yields `is_accessible = false` with a non-empty
`error_message`. -/
theorem analyze_always_envelope (url : Str) (o : HeadOutcome) :
    (∃ r, analyze_url url o = Except.ok r) ∧
      (isFailureOutcome o = true →
        ∃ r m, analyze_url url o = Except.ok r ∧
          r.is_accessible = false ∧ r.error_message = some m ∧ m ≠ []) := by
  cases o with
  | success st ctHdr clHdr =>
    refine ⟨⟨_, rfl⟩, fun h => ?_⟩
    simp [isFailureOutcome] at h
  | timeout =>
    exact ⟨⟨_, rfl⟩, fun _ => ⟨_, _, rfl, rfl, rfl, by decide⟩⟩
  | connError =>
    exact ⟨⟨_, rfl⟩, fun _ => ⟨_, _, rfl, rfl, rfl, by decide⟩⟩
  | httpError st msg =>
    exact ⟨⟨_, rfl⟩, fun _ =>
      ⟨_, _, rfl, rfl, rfl, append_ne_nil_left _ _ (by decide)⟩⟩
  | reqExc msg =>
    exact ⟨⟨_, rfl⟩, fun _ =>
      ⟨_, _, rfl, rfl, rfl, append_ne_nil_left _ _ (by decide)⟩⟩
  | otherExc msg =>
    exact ⟨⟨_, rfl⟩, fun _ =>
      ⟨_, _, rfl, rfl, rfl, append_ne_nil_left _ _ (by decide)⟩⟩

/-- Witness for C2 at a concrete timeout outcome. -/
theorem analyze_always_envelope_app :
    (∃ r, analyze_url [] HeadOutcome.timeout = Except.ok r) ∧
      (∃ r m, analyze_url [] HeadOutcome.timeout = Except.ok r ∧
        r.is_accessible = false ∧ r.error_message = some m ∧ m ≠ []) :=
  ⟨(analyze_always_envelope [] HeadOutcome.timeout).1,
   (analyze_always_envelope [] HeadOutcome.timeout).2 rfl⟩

/-- Claim C3: an upstream HTTP error in `analyze_url` yields the same
envelope shape with `is_accessible = false`, the upstream status code in
`status_code`, and an `error_message` carrying the `HTTP error: `
prefix. -/
theorem analyze_http_error_envelope (url : Str) (st : Nat) (msg : Str) :
    analyze_url url (HeadOutcome.httpError st msg) =
      Except.ok
        ⟨url, false, none, none, some st,
          some (("HTTP error: ".toList) ++ msg)⟩ := rfl

theorem fetchBody_wc (ext : ExtLib) (url : Str) (et : Bool) (st : Nat)
    (ctHdr : Option Str) (chunks : List (List Nat))
    (r : URLContentResponse)
    (h : fetchBody ext url et st ctHdr chunks = Except.ok r) :
    r.word_count = (pySplitWS r.content).length := by
  unfold fetchBody at h
  split at h
  · exact Except.noConfusion h
  · split at h
    · exact Except.noConfusion h
    · split at h
      · exact Except.noConfusion h
      · simp only [Except.ok.injEq] at h
        subst h
        rfl

/-- Claim C9: every successful `/fetch` response satisfies
`word_count = len(content.split())`: the word count is the number of
whitespace-run-delimited tokens of the returned content, on every
content-type branch. -/
theorem word_count_consistent (ext : ExtLib) (url : Str) (et : Bool)
    (o : FetchOutcome) (r : URLContentResponse)
    (h : fetch_url_content ext url et o = Except.ok r) :
    r.word_count = (pySplitWS r.content).length := by
  cases o with
  | success st ctHdr chunks =>
    simp only [fetch_url_content] at h
    cases hb : fetchBody ext url et st ctHdr chunks with
    | ok r0 =>
      rw [hb] at h
      simp only [exceptClauses, Except.ok.injEq] at h
      subst h
      exact fetchBody_wc ext url et st ctHdr chunks r0 hb
    | error e =>
      rw [hb] at h
      cases e with
      | httpErr s => simp [exceptClauses] at h
      | appExc c d => simp [exceptClauses] at h
  | timeout => exact Except.noConfusion h
  | connError => exact Except.noConfusion h
  | httpError s msg => exact Except.noConfusion h
  | reqExc msg => exact Except.noConfusion h
  | otherExc msg => exact Except.noConfusion h

/-- Witness for C9: a concrete two-byte `text/plain` fetch (`hi`, one
word). -/
theorem word_count_consistent_app :
    (1 : Nat) = (pySplitWS ('h' :: 'i' :: [])).length :=
  word_count_consistent ext0 [] true
    (FetchOutcome.success 200 (some ("text/plain".toList)) [[104, 105]])
    ⟨[], none, ('h' :: 'i' :: []), ("text/plain".toList), 200, 1, []⟩ rfl

/-- Claim C1 (code bug): the 413 payload-too-large `HTTPException` raised
inside the `try:` body when the stream exceeds 10 MiB is caught by the
final `except Exception` clause and re-raised as a 500 — so the caller of
`/fetch` receives HTTP 500 with detail
`An internal error occurred: 413: Content too large (max 10MB)`, not the
distinct 413 the specification promises.  Evaluated here on a streamed
body of `10*1024*1024 + 1` bytes. -/
theorem fetch_oversize_wrapped_to_500 :
    fetch_url_content ext0 [] true
        (FetchOutcome.success 200 none [bigChunk]) =
      Except.error
        ⟨500,
          ("An internal error occurred: 413: Content too large (max 10MB)".toList)⟩ := by
  have hrl : readLoop [] [bigChunk] =
      Except.error
        (BodyExc.appExc 413 ("Content too large (max 10MB)".toList)) := by
    have h := fetch_size_cap_strict [bigChunk]
    rw [if_neg] at h
    · exact h
    · simp only [List.flatten_cons, List.flatten_nil, List.append_nil,
        bigChunk, List.length_replicate, maxSize]
      omega
  have hfb : fetchBody ext0 [] true 200 none [bigChunk] =
      Except.error
        (BodyExc.appExc 413 ("Content too large (max 10MB)".toList)) := by
    unfold fetchBody
    rw [if_neg (by omega : ¬(400 ≤ 200 ∧ 200 < 600))]
    rw [hrl]
  simp only [fetch_url_content]
  rw [hfb]
  simp only [exceptClauses]
  refine congrArg Except.error (congrArg (HErr.mk 500) ?_)
  decide

/-- Claim C5: extraction output is clean.  Removing `script`/`style`
subtrees first does not change the output of `extract_text_from_html` (no
text of theirs reaches the output, and the cleaned tree contains no
script/style element), the output text never contains two consecutive
plain spaces, and the whitespace normalization is idempotent. -/
theorem html_extraction_clean :
    (∀ (soup : Node) (url : Str),
        extract_text_from_html (removeSS soup) url =
          extract_text_from_html soup url ∧
        noScriptStyle (removeSS soup) = true ∧
        hasSub (extract_text_from_html soup url).1 (' ' :: ' ' :: []) =
          false) ∧
      (∀ s : Str, pyNormalize (pyNormalize s) = pyNormalize s) := by
  constructor
  · intro soup url
    refine ⟨?_, noScriptStyle_removeSS soup, ?_⟩
    · simp only [extract_text_from_html, removeSS_idem]
    · have h1 : (extract_text_from_html soup url).1 =
          pyNormalize (region_text (removeSS soup)) := rfl
      rw [h1]
      exact noDbl_hasSub (pyNormalize_props _).1
  · exact pyNormalize_idem

/-- Claim C6: `extract_text_from_html` selects the main content region
by the exact fallback order `main`, `article`, first `div` whose class
attribute contains (case-sensitively) `content`, `main` or `article`,
`body`, whole parsed tree — the output text is taken from the first
region in that order that exists (a found tag is unconditionally truthy
in bs4, so both the `or` chain and the `if` tests only distinguish
`None`).  The first conjunct ties the selection to the extraction
output. -/
theorem region_selection_order (soup : Node) (url : Str) :
    (extract_text_from_html soup url).1 =
        pyNormalize (region_text (removeSS soup)) ∧
      (∀ m, nodeFindTag soup ("main".toList) = some m →
        region_text soup = getText m) ∧
      (nodeFindTag soup ("main".toList) = none →
        ∀ a, nodeFindTag soup ("article".toList) = some a →
          region_text soup = getText a) ∧
      (nodeFindTag soup ("main".toList) = none →
        nodeFindTag soup ("article".toList) = none →
        ∀ d, find_div_content soup = some d →
          region_text soup = getText d) ∧
      (nodeFindTag soup ("main".toList) = none →
        nodeFindTag soup ("article".toList) = none →
        find_div_content soup = none →
        ∀ b, nodeFindTag soup ("body".toList) = some b →
          region_text soup = getText b) ∧
      (nodeFindTag soup ("main".toList) = none →
        nodeFindTag soup ("article".toList) = none →
        find_div_content soup = none →
        nodeFindTag soup ("body".toList) = none →
          region_text soup = getText soup) := by
  refine ⟨rfl, ?_, ?_, ?_, ?_, ?_⟩
  · intro m hm
    have hmc : find_main_content soup = some m := by
      rw [find_main_content, hm]
      rfl
    unfold region_text
    rw [hmc]
  · intro hm a ha
    have hmc : find_main_content soup = some a := by
      rw [find_main_content, hm, ha]
      rfl
    unfold region_text
    rw [hmc]
  · intro hm ha d hd
    have hmc : find_main_content soup = some d := by
      rw [find_main_content, hm, ha, hd]
      rfl
    unfold region_text
    rw [hmc]
  · intro hm ha hd b hb
    have hmc : find_main_content soup = none := by
      rw [find_main_content, hm, ha, hd]
      rfl
    unfold region_text
    rw [hmc]
    unfold body_text
    rw [hb]
  · intro hm ha hd hb
    have hmc : find_main_content soup = none := by
      rw [find_main_content, hm, ha, hd]
      rfl
    unfold region_text
    rw [hmc]
    unfold body_text
    rw [hb]

/-- Witness for C6 at a document containing a `main` element: the
selection takes the text of that `main` element. -/
theorem region_selection_order_app :
    region_text soupMainW =
      getText
        (Node.elem ("main".toList) [] (forestOf [Node.text ("hi".toList)])) :=
  (region_selection_order soupMainW []).2.1
    (Node.elem ("main".toList) [] (forestOf [Node.text ("hi".toList)])) rfl

/-- Claim C7 counterexample: a `/fetch` response whose content type
contains both `text/html` and `application/json` (with `extract_text`
left at its default `true`) takes the HTML-extraction branch first, so a
body that fails to parse as JSON is not returned unchanged — here the
double space of the raw body `not  json` is collapsed by extraction. -/
theorem json_claim_cex :
    hasSub ("text/html;application/json".toList)
        ("application/json".toList) = true ∧
      extCex.loads ("not  json".toList) = none ∧
      fetch_url_content extCex [] true
          (FetchOutcome.success 200
            (some ("text/html;application/json".toList))
            [[110, 111, 116, 32, 32, 106, 115, 111, 110]]) =
        Except.ok
          ⟨[], none, ("not json".toList),
            ("text/html;application/json".toList), 200, 2, []⟩ ∧
      ("not json".toList) ≠ ("not  json".toList) := by
  refine ⟨by decide, rfl, rfl, by decide⟩

/-- Claim C7 (amended): for a `/fetch` response whose content type
contains `application/json` and which does not take the HTML-extraction
branch (the content type lacks `text/html`, or `extract_text` is false),
a JSON parse failure is silently ignored and the raw decoded text is
returned unchanged with empty metadata, while a successful parse returns
the re-serialized indented JSON with the top-level keys as metadata. -/
theorem json_branch_behavior (ext : ExtLib) (url : Str) (ct : Str)
    (et : Bool) (text0 : Str)
    (hj : hasSub ct ("application/json".toList) = true)
    (hh : (hasSub ct ("text/html".toList) && et) = false) :
    (ext.loads text0 = none →
      processContent ext url ct et text0 = (text0, none, [])) ∧
      (∀ j, ext.loads text0 = some j →
        processContent ext url ct et text0 =
          (ext.dumps j, none,
            [(("json_keys".toList), MetaVal.keys (topKeys j))])) := by
  have hne : ¬((hasSub ct ("text/html".toList) && et) = true) := by
    intro hc
    rw [hc] at hh
    exact Bool.noConfusion hh
  constructor
  · intro hl
    rw [processContent, if_neg hne, if_pos hj, hl]
  · intro j hl
    rw [processContent, if_neg hne, if_pos hj, hl]

/-- Witness for the amended C7: a pure `application/json` content type
with a body the parser rejects is passed through unchanged. -/
theorem json_branch_behavior_app :
    processContent ext0 [] ("application/json".toList) true ("x".toList) =
      (("x".toList), none, []) :=
  (json_branch_behavior ext0 [] ("application/json".toList) true
    ("x".toList) (by decide) (by decide)).1 rfl

/-- Claim C8 counterexample: in `soupOgEmpty` the meta tag with property
`og:title` matches the `^og:` search, but its empty `content` attribute
fails the `if property_name and content:` guard, so no `og_title` key is
captured — the claim promises capture (to that empty content value) for
every matching tag. -/
theorem og_capture_cex :
    og_meta_tags (removeSS soupOgEmpty) =
        [Node.elem ("meta".toList)
          [(("property".toList), ("og:title".toList)),
           (("content".toList), [])] .nil] ∧
      dictGet (extract_text_from_html soupOgEmpty []).2.2
        ("og_title".toList) = none := by
  refine ⟨rfl, rfl⟩

/-- Claim C8 (amended): every meta tag whose `property` matches the
`^og:` search, whose `content` is non-empty and whose stripped name (the
property value with every `og:` occurrence removed) is non-empty, is
captured: the extraction metadata maps `og_<stripped name>` to the
`content` of the last such tag with that key. -/
theorem og_capture_last (soup : Node) (url : Str) (k : Str) (v : Str)
    (h : lastVal (og_entries (removeSS soup)) k = some v) :
    dictGet (extract_text_from_html soup url).2.2 k = some v := by
  show dictGet
      ((og_meta_tags (removeSS soup)).foldl
        (fun d t =>
          match ogEntryOf t with
          | some kv => dictSet d kv.1 kv.2
          | none => d) _) k = some v
  rw [fold_og_lookup]
  have he : (og_meta_tags (removeSS soup)).filterMap ogEntryOf =
      og_entries (removeSS soup) := rfl
  rw [he, h]

/-- Witness for the amended C8: one `og:title` tag with content `T` is
captured under `og_title`. -/
theorem og_capture_last_app :
    dictGet (extract_text_from_html soupOgW []).2.2 ("og_title".toList) =
      some ("T".toList) :=
  og_capture_last soupOgW [] ("og_title".toList) ("T".toList) rfl
